import Mathlib

/-!
# Verification of the pgtype enum codec and nullable text value

Shallow embedding of `src/pgtype/enum_codec.go` (and, where the
implementation file is absent from the sources, models built from the
specification).  Go strings and byte slices are byte sequences, embedded
as `List Nat`; a nilable byte slice is `Option GoString` with `none` for
the nil (SQL NULL) buffer.  The Go map `map[string]string` is embedded as
an association list, with `Option` distinguishing the nil map from an
allocated empty map.  Functions that mutate the codec's cache return the
updated codec explicitly.
-/

set_option autoImplicit false
set_option linter.unusedVariables false

namespace Pgtype

/-- A Go string / byte slice: a sequence of bytes. -/
abbrev GoString := List Nat

/-- Wire format codes (spec §6: `0 = Text`, `1 = Binary`; referenced by
`enum_codec.go` as `TextFormatCode` / `BinaryFormatCode`). -/
def TextFormatCode : Int := 0

/-- Binary wire format code. -/
def BinaryFormatCode : Int := 1

/-- `ConnInfo` is opaque to the enum codec: none of its fields are read. -/
structure ConnInfo where

/-- The nullable text value `pgtype.Text` (`String`, `Valid` fields).
`Valid = false` represents SQL NULL; the Go zero value `Text{}` is
`{ String := [], Valid := false }`. -/
structure Text where
  String : GoString
  Valid : Bool
deriving DecidableEq, Repr

/-- `EnumCodec`: holds the interning cache `membersMap map[string]string`.
`none` is the nil map of a zero-valued codec. -/
structure EnumCodec where
  membersMap : Option (List (GoString × GoString))
deriving DecidableEq, Repr

/-- A freshly constructed (zero-valued) `EnumCodec`: nil `membersMap`. -/
def freshEnumCodec : EnumCodec := { membersMap := none }

/-- Lookup in a Go map embedded as an association list. -/
def mapFind (m : List (GoString × GoString)) (k : GoString) : Option GoString :=
  match m with
  | [] => none
  | (k2, v) :: rest => if k2 = k then some v else mapFind rest k

/-- Go map assignment `m[k] = v`: replaces the binding of `k` if present,
appends it otherwise. -/
def mapAssign (m : List (GoString × GoString)) (k v : GoString) :
    List (GoString × GoString) :=
  match m with
  | [] => [(k, v)]
  | (k2, v2) :: rest =>
      if k2 = k then (k, v) :: rest else (k2, v2) :: mapAssign rest k v

/-- `EnumCodec.lookupAndCacheString` translated literally from the source.
The source reads

    if s, found := c.membersMap[string(src)]; found {
        return s
    } else {
        c.membersMap[s] = s
        return s
    }

In the else branch the variable `s` is the zero value produced by the
failed map lookup — the empty string — so on a cache miss the source
inserts the binding `"" ↦ ""` and returns `""`, regardless of `src`.
The embedding reproduces exactly that. -/
def EnumCodec.lookupAndCacheString (c : EnumCodec) (src : GoString) :
    GoString × EnumCodec :=
  let m := match c.membersMap with
    | none => []
    | some m0 => m0
  match mapFind m src with
  | some s => (s, { membersMap := some m })
  | none =>
      let s : GoString := []
      (s, { membersMap := some (mapAssign m s s) })

/-- A decoded Go `interface{}` value: nil, or a string. -/
inductive GoValue where
  | nil
  | str (s : GoString)
deriving DecidableEq, Repr

/-- A Go `error` result: `none` is the nil error. -/
abbrev GoError := Option GoString

/-- `EnumCodec.DecodeValue`: nil source returns `(nil, nil)` untouched;
otherwise the interning lookup runs and its string is returned. -/
def EnumCodec.DecodeValue (c : EnumCodec) (ci : ConnInfo) (oid : Nat)
    (format : Int) (src : Option GoString) : (GoValue × GoError) × EnumCodec :=
  match src with
  | none => ((GoValue.nil, none), c)
  | some b =>
      let r := c.lookupAndCacheString b
      ((GoValue.str r.1, none), r.2)

/-- `EnumCodec.DecodeDatabaseSQLValue` delegates to `DecodeValue`. -/
def EnumCodec.DecodeDatabaseSQLValue (c : EnumCodec) (ci : ConnInfo)
    (oid : Nat) (format : Int) (src : Option GoString) :
    (GoValue × GoError) × EnumCodec :=
  c.DecodeValue ci oid format src

/-- The concrete runtime shape of the `interface{}` value handed to
`PlanEncode`; `other` covers every shape outside the source's type switch. -/
inductive EncodeValue where
  | str (s : GoString)
  | byteSlice (b : GoString)
  | runeVal (r : Int)
  | textValuer (t : Text)
  | other
deriving DecidableEq, Repr

/-- The encode plans `EnumCodec.PlanEncode` can return. -/
inductive EncodePlan where
  | encodePlanTextCodecString
  | encodePlanTextCodecByteSlice
  | encodePlanTextCodecRune
  | encodePlanTextCodecTextValuer
deriving DecidableEq, Repr

/-- `EnumCodec.PlanEncode`: format switch admits only the two format
codes, then a type switch on the value's shape; no match returns nil. -/
def EnumCodec.PlanEncode (ci : ConnInfo) (oid : Nat) (format : Int)
    (value : EncodeValue) : Option EncodePlan :=
  if format = TextFormatCode ∨ format = BinaryFormatCode then
    match value with
    | EncodeValue.str _ => some EncodePlan.encodePlanTextCodecString
    | EncodeValue.byteSlice _ => some EncodePlan.encodePlanTextCodecByteSlice
    | EncodeValue.runeVal _ => some EncodePlan.encodePlanTextCodecRune
    | EncodeValue.textValuer _ => some EncodePlan.encodePlanTextCodecTextValuer
    | EncodeValue.other => none
  else none

/-- The concrete runtime shape of the scan destination handed to
`PlanScan`. -/
inductive ScanTarget where
  | stringPtr
  | byteSlicePtr
  | textScanner
  | runePtr
  | other
deriving DecidableEq, Repr

/-- The scan plans `EnumCodec.PlanScan` can return. -/
inductive ScanPlanKind where
  | scanPlanTextAnyToEnumString
  | scanPlanAnyToNewByteSlice
  | scanPlanTextAnyToEnumTextScanner
  | scanPlanTextAnyToRune
deriving DecidableEq, Repr

/-- `EnumCodec.PlanScan`: format switch, then type switch on the
destination's shape; no match returns nil. -/
def EnumCodec.PlanScan (ci : ConnInfo) (oid : Nat) (format : Int)
    (target : ScanTarget) (actualTarget : Bool) : Option ScanPlanKind :=
  if format = TextFormatCode ∨ format = BinaryFormatCode then
    match target with
    | ScanTarget.stringPtr => some ScanPlanKind.scanPlanTextAnyToEnumString
    | ScanTarget.byteSlicePtr => some ScanPlanKind.scanPlanAnyToNewByteSlice
    | ScanTarget.textScanner => some ScanPlanKind.scanPlanTextAnyToEnumTextScanner
    | ScanTarget.runePtr => some ScanPlanKind.scanPlanTextAnyToRune
    | ScanTarget.other => none
  else none

/-- The bytes of the error message `cannot scan null into *string`
(`fmt.Errorf("cannot scan null into %T", dst)` with `dst` a `*string`). -/
def cannotScanNullIntoStringPtr : GoString :=
  "cannot scan null into *string".toList.map Char.toNat

/-- `scanPlanTextAnyToEnumString.Scan`: nil source errors before touching
the destination; otherwise the interned string is written to `*dst`.
Returns `((error, value now stored at dst), updated codec)`. -/
def scanPlanTextAnyToEnumString.Scan (c : EnumCodec) (ci : ConnInfo)
    (oid : Nat) (formatCode : Int) (src : Option GoString) (dst : GoString) :
    (GoError × GoString) × EnumCodec :=
  match src with
  | none => ((some cannotScanNullIntoStringPtr, dst), c)
  | some b =>
      let r := c.lookupAndCacheString b
      ((none, r.1), r.2)

/-- `scanPlanTextAnyToEnumTextScanner.Scan`: the destination's
`ScanText` method is embedded as a function from the passed `Text` to the
error it returns.  Nil source passes the zero value `Text{}`; otherwise
the interned string with `Valid = true`. -/
def scanPlanTextAnyToEnumTextScanner.Scan (c : EnumCodec)
    (scanText : Text → GoError) (ci : ConnInfo) (oid : Nat)
    (formatCode : Int) (src : Option GoString) : GoError × EnumCodec :=
  match src with
  | none => (scanText { String := [], Valid := false }, c)
  | some b =>
      let r := c.lookupAndCacheString b
      (scanText { String := r.1, Valid := true }, r.2)

/-- Modelled from the spec: `encodePlanTextCodecString.Encode`, whose
implementation file is not among the sources (only its use from
`EnumCodec.PlanEncode` is).  Spec §4.2: a plain string is encoded
"verbatim as UTF-8-equivalent bytes"; the encoder appends them to the
caller's buffer and never fails, and a returned `none` buffer would mark
NULL. -/
def encodePlanTextCodecString.Encode (value : GoString) (buf : GoString) :
    Option GoString × GoError :=
  (some (buf ++ value), none)

/-! ## JSON interop for the nullable text value

`Text.MarshalJSON` / `Text.UnmarshalJSON` live in the implementation file
of `pgtype.Text`, which is not among the sources — only their tests
(`text_test.go`) are.  The functions below are therefore modelled from
the spec (§4.6) and checked against those tests. -/

/-- The bytes of the JSON `null` literal. -/
def jsonNullLiteral : GoString := [110, 117, 108, 108]

/-- A hexadecimal digit character (lowercase), for `\u00XX` escapes. -/
def hexDigit (n : Nat) : Nat :=
  if n < 10 then 48 + n else 87 + n

/-- The value of a hexadecimal digit character, if it is one. -/
def hexVal (b : Nat) : Option Nat :=
  if 48 ≤ b ∧ b ≤ 57 then some (b - 48)
  else if 97 ≤ b ∧ b ≤ 102 then some (b - 87)
  else if 65 ≤ b ∧ b ≤ 70 then some (b - 55)
  else none

/-- JSON escaping of one byte of string content: quote and backslash get
a two-character escape, control bytes a `\u00XX` escape, everything else
passes through. -/
def jsonEscapeChar (b : Nat) : GoString :=
  if b = 34 then [92, 34]
  else if b = 92 then [92, 92]
  else if b < 32 then [92, 117, 48, 48, hexDigit (b / 16), hexDigit (b % 16)]
  else [b]

/-- JSON escaping of string content. -/
def jsonEscape : GoString → GoString
  | [] => []
  | b :: rest => jsonEscapeChar b ++ jsonEscape rest

/-- Modelled from the spec: `Text.MarshalJSON` (implementation file
absent; §4.6): `present = false` gives the JSON `null` literal,
`present = true` a properly escaped JSON string of the content. -/
def Text.MarshalJSON (t : Text) : GoString :=
  if t.Valid then 34 :: (jsonEscape t.String ++ [34])
  else jsonNullLiteral

/-- Body of a JSON string after the opening quote: consume escaped
content up to the closing quote, which must end the input.  Returns the
decoded content, or `none` on malformed input. -/
def parseJSONStringBody : GoString → Option GoString
  | [] => none
  | b :: rest =>
    if b = 34 then (if rest = [] then some [] else none)
    else if b = 92 then
      match rest with
      | 34 :: rest2 => (parseJSONStringBody rest2).map (fun r => 34 :: r)
      | 92 :: rest2 => (parseJSONStringBody rest2).map (fun r => 92 :: r)
      | 47 :: rest2 => (parseJSONStringBody rest2).map (fun r => 47 :: r)
      | 98 :: rest2 => (parseJSONStringBody rest2).map (fun r => 8 :: r)
      | 102 :: rest2 => (parseJSONStringBody rest2).map (fun r => 12 :: r)
      | 110 :: rest2 => (parseJSONStringBody rest2).map (fun r => 10 :: r)
      | 114 :: rest2 => (parseJSONStringBody rest2).map (fun r => 13 :: r)
      | 116 :: rest2 => (parseJSONStringBody rest2).map (fun r => 9 :: r)
      | 117 :: h1 :: h2 :: h3 :: h4 :: rest2 =>
          match hexVal h1, hexVal h2, hexVal h3, hexVal h4,
              parseJSONStringBody rest2 with
          | some v1, some v2, some v3, some v4, some r =>
              some ((((v1 * 16 + v2) * 16 + v3) * 16 + v4) :: r)
          | _, _, _, _, _ => none
      | _ => none
    else if b < 32 then none
    else (parseJSONStringBody rest).map (fun r => b :: r)

/-- Modelled from the spec: `Text.UnmarshalJSON` (implementation file
absent; §4.6): JSON `null` gives `{present:false, content:""}`, a JSON
string gives `{present:true}` with the decoded content, any other JSON
shape is a decoding error (`none`). -/
def Text.UnmarshalJSON (s : GoString) : Option Text :=
  if s = jsonNullLiteral then some { String := [], Valid := false }
  else
    match s with
    | 34 :: rest =>
        (parseJSONStringBody rest).map (fun content =>
          { String := content, Valid := true })
    | _ => none

/-! ## Invariants and helper lemmas -/

/-- Every binding of the codec's cache maps a key to itself (the
interning invariant; trivially true of a nil map). -/
def CacheSelf (c : EnumCodec) : Prop :=
  ∀ m, c.membersMap = some m → ∀ kv ∈ m, kv.2 = kv.1

theorem cacheSelf_fresh : CacheSelf freshEnumCodec := by
  intro m hm
  simp [freshEnumCodec] at hm

theorem mapFind_self {m : List (GoString × GoString)} {k v : GoString}
    (hm : ∀ kv ∈ m, kv.2 = kv.1) (h : mapFind m k = some v) : v = k := by
  induction m with
  | nil => simp [mapFind] at h
  | cons kv rest ih =>
      obtain ⟨k2, v2⟩ := kv
      rw [mapFind] at h
      split at h
      · rename_i heq
        have hv := hm (k2, v2) (List.mem_cons_self _ _)
        simp only at hv
        cases h
        rw [hv, heq]
      · exact ih (fun p hp => hm p (List.mem_cons_of_mem _ hp)) h

/-- Under the interning invariant the lookup of the empty string always
produces the empty string, whether it hits or misses. -/
theorem lookupAndCacheString_nil (c : EnumCodec) (h : CacheSelf c) :
    (c.lookupAndCacheString []).1 = [] := by
  rw [EnumCodec.lookupAndCacheString]
  cases hm : c.membersMap with
  | none => simp [mapFind]
  | some m =>
      simp only
      cases hf : mapFind m [] with
      | none => simp [hf]
      | some s =>
          simp only [hf]
          exact mapFind_self (h m hm) hf

theorem hexVal_hexDigit (n : Nat) (h : n < 16) : hexVal (hexDigit n) = some n := by
  interval_cases n <;> rfl

theorem parse_esc_quote (t : GoString) :
    parseJSONStringBody (92 :: 34 :: t) =
      (parseJSONStringBody t).map (fun r => 34 :: r) := rfl

theorem parse_esc_backslash (t : GoString) :
    parseJSONStringBody (92 :: 92 :: t) =
      (parseJSONStringBody t).map (fun r => 92 :: r) := rfl

theorem parse_esc_u (h1 h2 h3 h4 : Nat) (t : GoString) :
    parseJSONStringBody (92 :: 117 :: h1 :: h2 :: h3 :: h4 :: t) =
      (match hexVal h1, hexVal h2, hexVal h3, hexVal h4,
          parseJSONStringBody t with
        | some v1, some v2, some v3, some v4, some r =>
            some ((((v1 * 16 + v2) * 16 + v3) * 16 + v4) :: r)
        | _, _, _, _, _ => none) := rfl

set_option maxHeartbeats 1000000 in
theorem parse_plain (b : Nat) (t : GoString) (h34 : ¬b = 34) (h92 : ¬b = 92)
    (hge : ¬b < 32) :
    parseJSONStringBody (b :: t) =
      (parseJSONStringBody t).map (fun r => b :: r) := by
  conv_lhs => rw [parseJSONStringBody.eq_def]
  simp only
  rw [if_neg h34, if_neg h92, if_neg hge]

/-- The string body parser inverts the escaper: this is the decode half
of the JSON string round trip. -/
theorem parseJSONStringBody_jsonEscape (s : GoString) :
    parseJSONStringBody (jsonEscape s ++ [34]) = some s := by
  induction s with
  | nil => rfl
  | cons b rest ih =>
      rw [jsonEscape, List.append_assoc]
      by_cases h34 : b = 34
      · subst h34
        rw [show jsonEscapeChar 34 = [92, 34] from rfl]
        simp only [List.cons_append, List.nil_append]
        rw [parse_esc_quote, ih]
        rfl
      · by_cases h92 : b = 92
        · subst h92
          rw [show jsonEscapeChar 92 = [92, 92] from rfl]
          simp only [List.cons_append, List.nil_append]
          rw [parse_esc_backslash, ih]
          rfl
        · by_cases hlt : b < 32
          · have hd1 : hexVal (hexDigit (b / 16)) = some (b / 16) :=
              hexVal_hexDigit _ (by omega)
            have hd2 : hexVal (hexDigit (b % 16)) = some (b % 16) :=
              hexVal_hexDigit _ (by omega)
            rw [jsonEscapeChar, if_neg h34, if_neg h92, if_pos hlt]
            simp only [List.cons_append, List.nil_append]
            rw [parse_esc_u, ih, hd1, hd2]
            show some ((((0 * 16 + 0) * 16 + b / 16) * 16 + b % 16) :: rest) =
              some (b :: rest)
            have harith : ((0 * 16 + 0) * 16 + b / 16) * 16 + b % 16 = b := by
              omega
            rw [harith]
          · rw [jsonEscapeChar, if_neg h34, if_neg h92, if_neg hlt]
            simp only [List.cons_append, List.nil_append]
            rw [parse_plain b _ h34 h92 hlt, ih]
            rfl

/-! ## Claims -/

/-- C1.  The claim says `DecodeValue` on a non-nil buffer returns the
interned string whose content equals the buffer, inserting it into the
cache if absent.  The code does not: on a cache miss the zero-valued `s`
of the failed lookup is inserted and returned, so decoding the one-byte
buffer `"a"` on a fresh codec yields the empty string and caches the
binding `"" ↦ ""`, not `"a" ↦ "a"`. -/
theorem c1_decode_miss_returns_empty :
    freshEnumCodec.DecodeValue ConnInfo.mk 3000 TextFormatCode (some [97]) =
      ((GoValue.str [], none), { membersMap := some [([], [])] }) ∧
    ([] : GoString) ≠ [97] := by
  decide

/-- C2.  The claim says decoding two different byte contents returns
distinct instances.  It does not: decoding `"a"` and then `"b"` through
one codec returns the empty string both times. -/
theorem c2_distinct_contents_same_result :
    ([97] : GoString) ≠ [98] ∧
    (freshEnumCodec.DecodeValue ConnInfo.mk 3000 TextFormatCode (some [97])).1.1 =
      GoValue.str [] ∧
    ((freshEnumCodec.DecodeValue ConnInfo.mk 3000 TextFormatCode (some [97])).2.DecodeValue
        ConnInfo.mk 3000 TextFormatCode (some [98])).1.1 = GoValue.str [] := by
  decide

/-- C3.  The claim says encode-then-scan round-trips every string.  At
`s = "a"` on a fresh codec the resolved plans produce the empty string
instead: the scan half routes through the broken interning lookup. -/
theorem c3_roundtrip_fails :
    EnumCodec.PlanEncode ConnInfo.mk 3000 TextFormatCode (EncodeValue.str [97]) =
      some EncodePlan.encodePlanTextCodecString ∧
    encodePlanTextCodecString.Encode [97] [] = (some [97], none) ∧
    EnumCodec.PlanScan ConnInfo.mk 3000 TextFormatCode ScanTarget.stringPtr true =
      some ScanPlanKind.scanPlanTextAnyToEnumString ∧
    (scanPlanTextAnyToEnumString.Scan freshEnumCodec ConnInfo.mk 3000 TextFormatCode
        (some [97]) []).1 = (none, ([] : GoString)) ∧
    ([] : GoString) ≠ [97] := by
  decide

/-- C4.  Scanning a nil source into a plain-string destination fails with
the error naming the destination shape (`*string`); scanning a nil source
into a `TextScanner` destination passes the destination the zero `Text`
value (`Valid = false`) and returns exactly the scanner's own result, so
it succeeds whenever the scanner does. -/
theorem c4_scan_null_destinations (c : EnumCodec) (dst : GoString)
    (scanText : Text → GoError) (oid : Nat) (fmt : Int) :
    (scanPlanTextAnyToEnumString.Scan c ConnInfo.mk oid fmt none dst).1.1 =
      some cannotScanNullIntoStringPtr ∧
    (scanPlanTextAnyToEnumTextScanner.Scan c scanText ConnInfo.mk oid fmt none).1 =
      scanText { String := [], Valid := false } ∧
    (Text.mk [] false).Valid = false ∧
    ((∀ t, scanText t = none) →
      (scanPlanTextAnyToEnumTextScanner.Scan c scanText ConnInfo.mk oid fmt none).1 =
        none) := by
  refine ⟨rfl, rfl, rfl, fun h => ?_⟩
  simp [scanPlanTextAnyToEnumTextScanner.Scan, h]

/-- Witness for C4 at a concrete scanner that always succeeds. -/
theorem c4_scan_null_destinations_witness :
    (scanPlanTextAnyToEnumTextScanner.Scan freshEnumCodec (fun _ => none) ConnInfo.mk
      0 TextFormatCode none).1 = none :=
  (c4_scan_null_destinations freshEnumCodec [] (fun _ => none) 0 TextFormatCode).2.2.2
    (fun _ => rfl)

/-- C5.  For every codec state and format, `DecodeValue` of a nil source
returns `(nil, nil)` and the codec — its cache included — is returned
unchanged. -/
theorem c5_decode_null_frame (c : EnumCodec) (ci : ConnInfo) (oid : Nat)
    (format : Int) :
    c.DecodeValue ci oid format none = ((GoValue.nil, none), c) := rfl

/-- C6.  `PlanEncode` and `PlanScan` return no plan for any format other
than Text (0) and Binary (1), and for unmatched value/destination shapes
in any format; their return type carries no error channel, so the miss is
always silent. -/
theorem c6_plan_resolution_none (ci : ConnInfo) (oid : Nat) (format : Int)
    (value : EncodeValue) (target : ScanTarget) (actualTarget : Bool) :
    (format ≠ TextFormatCode → format ≠ BinaryFormatCode →
      EnumCodec.PlanEncode ci oid format value = none ∧
      EnumCodec.PlanScan ci oid format target actualTarget = none) ∧
    EnumCodec.PlanEncode ci oid format EncodeValue.other = none ∧
    EnumCodec.PlanScan ci oid format ScanTarget.other actualTarget = none := by
  refine ⟨fun h1 h2 => ?_, ?_, ?_⟩
  · constructor <;> simp [EnumCodec.PlanEncode, EnumCodec.PlanScan, h1, h2]
  · by_cases h : format = TextFormatCode ∨ format = BinaryFormatCode <;>
      simp [EnumCodec.PlanEncode, h]
  · by_cases h : format = TextFormatCode ∨ format = BinaryFormatCode <;>
      simp [EnumCodec.PlanScan, h]

/-- Witness for C6 at format 5, a string value and a string-pointer
destination. -/
theorem c6_plan_resolution_none_witness :
    EnumCodec.PlanEncode ConnInfo.mk 0 5 (EncodeValue.str [97]) = none ∧
    EnumCodec.PlanScan ConnInfo.mk 0 5 ScanTarget.stringPtr true = none :=
  (c6_plan_resolution_none ConnInfo.mk 0 5 (EncodeValue.str [97])
    ScanTarget.stringPtr true).1 (by decide) (by decide)

/-- C7.  Under the interning invariant (every cache binding maps a key to
itself, true of every state this code can reach), decoding a present
zero-length buffer returns the present empty string, decoding a nil
buffer returns nil, and the two results differ. -/
theorem c7_empty_buffer_vs_null (c : EnumCodec) (oid : Nat) (format : Int)
    (h : CacheSelf c) :
    (c.DecodeValue ConnInfo.mk oid format (some [])).1.1 = GoValue.str [] ∧
    (c.DecodeValue ConnInfo.mk oid format none).1.1 = GoValue.nil ∧
    GoValue.str [] ≠ GoValue.nil := by
  refine ⟨?_, rfl, by decide⟩
  simp [EnumCodec.DecodeValue, lookupAndCacheString_nil c h]

/-- Witness for C7 at the fresh codec. -/
theorem c7_empty_buffer_vs_null_witness :
    CacheSelf freshEnumCodec ∧
    (freshEnumCodec.DecodeValue ConnInfo.mk 0 TextFormatCode (some [])).1.1 =
      GoValue.str [] :=
  ⟨cacheSelf_fresh,
    (c7_empty_buffer_vs_null freshEnumCodec 0 TextFormatCode cacheSelf_fresh).1⟩

/-- C8.  JSON interop for the nullable text value: an absent value
marshals to the `null` literal, `{present, "a"}` marshals to the JSON
string `"a"`, the `null` literal unmarshals to the absent zero value, and
a JSON string unmarshals to a present value with the decoded content —
in particular unmarshalling the marshalled form of any present content
recovers it exactly. -/
theorem c8_json_interop :
    Text.MarshalJSON { String := [], Valid := false } = jsonNullLiteral ∧
    Text.MarshalJSON { String := [97], Valid := true } = [34, 97, 34] ∧
    Text.UnmarshalJSON jsonNullLiteral = some { String := [], Valid := false } ∧
    Text.UnmarshalJSON [34, 97, 34] = some { String := [97], Valid := true } ∧
    ∀ s : GoString,
      Text.UnmarshalJSON (Text.MarshalJSON { String := s, Valid := true }) =
        some { String := s, Valid := true } := by
  refine ⟨rfl, rfl, rfl, rfl, fun s => ?_⟩
  have hmarshal : Text.MarshalJSON { String := s, Valid := true } =
      34 :: (jsonEscape s ++ [34]) := rfl
  have hne : (34 :: (jsonEscape s ++ [34])) ≠ jsonNullLiteral := by
    simp [jsonNullLiteral]
  rw [hmarshal, Text.UnmarshalJSON, if_neg hne]
  simp [parseJSONStringBody_jsonEscape]

/-- C9.  A nil source makes `scanPlanTextAnyToEnumString.Scan` return its
error with the destination string — and the codec — left exactly as they
were. -/
theorem c9_null_scan_leaves_dst (c : EnumCodec) (dst : GoString) (ci : ConnInfo)
    (oid : Nat) (fmt : Int) :
    scanPlanTextAnyToEnumString.Scan c ci oid fmt none dst =
      ((some cannotScanNullIntoStringPtr, dst), c) := rfl

/-- C10.  `DecodeDatabaseSQLValue` returns exactly what `DecodeValue`
returns on the same input, updated cache included. -/
theorem c10_decodeDatabaseSQLValue_eq (c : EnumCodec) (ci : ConnInfo)
    (oid : Nat) (format : Int) (src : Option GoString) :
    c.DecodeDatabaseSQLValue ci oid format src = c.DecodeValue ci oid format src :=
  rfl

end Pgtype
